import Mathlib

set_option linter.unusedVariables false

/-!
Shallow embedding of SymBot's meta-command module
(`src/symbot/dev/meta/command.py`) — the `!command` dispatcher with its
`addcom`, `delcom` and `skellify_message` methods — together with proofs
about the behaviour of that code.

Python strings are modelled as Lean `String` (a wrapper around `List Char`);
the two regular expressions of the module are modelled by explicit greedy
matching functions; exceptions (`AttributeError`, `KeyError`, `ValueError`)
that the module catches are modelled by an `Except` result whose error
constructors correspond one-to-one to the module's `except` branches.
-/

namespace SymBot

/-- Models Python `s.startswith(c)` for a single-character pattern `c`. -/
def pyStartsWith (s : String) (c : Char) : Bool :=
  s.toList.head? == some c

/-- Models Python `s.lower()` (the module only applies it to ASCII setting
values such as `TrUe`; non-ASCII case folding is not needed by any claim). -/
def pyLower (s : String) : String :=
  (s.toList.map Char.toLower).asString

/-- Index of the last occurrence of `c` in `l`, if any. -/
def lastIdxOf (c : Char) : List Char → Option Nat
  | [] => none
  | a :: t =>
    match lastIdxOf c t with
    | some k => some (k + 1)
    | none => if a = c then some 0 else none

/-- Models `re.compile('\\$(.*){(.*)}').search(s).groups()` from
`Command.__init__` / `Command.skellify_message`, for the only call site,
which guards `s.startswith('$')`.  With both `(.*)` greedy and `search`
unanchored, a match exists iff the token contains a `{` later followed by a
`}`; the first group then runs from after the leading `$` up to the last `{`
that precedes the last `}`, and the second group runs from after that `{` up
to the last `}`. -/
def argExtractCore (l : List Char) : Option (List Char × List Char) :=
  if l.head? = some '$' then
    match lastIdxOf '}' l with
    | none => none
    | some j =>
      match lastIdxOf '{' (l.take j) with
      | none => none
      | some i => some ((l.take i).drop 1, (l.take j).drop (i + 1))
  else none

/-- String-level wrapper of `argExtractCore`. -/
def argExtractorSearch (s : String) : Option (String × String) :=
  (argExtractCore s.toList).map (fun p => (p.1.asString, p.2.asString))

/-- Models `re.compile('-(.*)=(.*)').search(s).groups()` for the only call
site, which guards `s.startswith('-')`.  A match exists iff the token
contains a `=` after the leading `-`; the first group then runs up to the
last `=` (greedy) and the second group is the remainder of the token. -/
def settingExtractCore (l : List Char) : Option (List Char × List Char) :=
  if l.head? = some '-' then
    match lastIdxOf '=' l with
    | none => none
    | some k => some ((l.take k).drop 1, l.drop (k + 1))
  else none

/-- String-level wrapper of `settingExtractCore`. -/
def settingExtractorSearch (s : String) : Option (String × String) :=
  (settingExtractCore s.toList).map (fun p => (p.1.asString, p.2.asString))

/-- Characters stripped by Python's `int()` / `float()` conversions
(ASCII whitespace; the claims exercise only ASCII input). -/
def isPySpace (c : Char) : Bool :=
  c = ' ' ∨ c = '\t' ∨ c = '\n' ∨ c = '\r' ∨ c = '\x0b' ∨ c = '\x0c'

/-- Strip leading and trailing whitespace from a character list. -/
def pyStripWS (l : List Char) : List Char :=
  ((l.dropWhile isPySpace).reverse.dropWhile isPySpace).reverse

/-- Digit-group tail: after an initial digit, Python numeric literals allow
further digits with single underscores strictly between digits. -/
def pyDigitsGo (acc : Nat) : List Char → Option Nat
  | [] => some acc
  | '_' :: c :: rest =>
    if c.isDigit then pyDigitsGo (acc * 10 + (c.toNat - 48)) rest else none
  | '_' :: [] => none
  | c :: rest =>
    if c.isDigit then pyDigitsGo (acc * 10 + (c.toNat - 48)) rest else none

/-- A nonempty ASCII digit group with Python's underscore rule; returns its
numeric value. -/
def pyDigits (l : List Char) : Option Nat :=
  match l with
  | [] => none
  | c :: rest => if c.isDigit then pyDigitsGo (c.toNat - 48) rest else none

/-- Models Python `int(value)` on the decimal string form: optional
surrounding whitespace, optional sign, then a digit group.  (Python further
accepts non-ASCII Unicode digits, which no claim exercises.)  `none` models
a raised `ValueError`. -/
def pyInt (s : String) : Option Int :=
  match pyStripWS s.toList with
  | '+' :: rest => (pyDigits rest).map Int.ofNat
  | '-' :: rest => (pyDigits rest).map (fun n => -(n : Int))
  | l => (pyDigits l).map Int.ofNat

/-- Nonempty-or-empty digit group (used for the parts of a float literal). -/
def pyDigitsOpt (l : List Char) : Bool :=
  l.isEmpty || (pyDigits l).isSome

/-- Split a character list at the first character satisfying `p`, returning
the part before it and, when found, the part after it. -/
def splitAtChar (p : Char → Bool) : List Char → List Char × Option (List Char)
  | [] => ([], none)
  | c :: t =>
    if p c then ([], some t)
    else
      let r := splitAtChar p t
      (c :: r.1, r.2)

/-- Acceptance of the numeric part of a Python float literal (after sign):
`[digits][.digits][ (e|E) [sign] digits ]` with at least one mantissa digit
and Python's underscore rule in each digit group. -/
def pyFloatNumber (l : List Char) : Bool :=
  let em := splitAtChar (fun c => c = 'e' ∨ c = 'E') l
  let mant := splitAtChar (fun c => c = '.') em.1
  let fracOk :=
    match mant.2 with
    | none => true
    | some fp => pyDigitsOpt fp
  let mantOk :=
    pyDigitsOpt mant.1 && fracOk &&
      !(mant.1.isEmpty && (match mant.2 with | none => true | some fp => fp.isEmpty))
  let expOk :=
    match em.2 with
    | none => true
    | some ex =>
      match ex with
      | '+' :: d => (pyDigits d).isSome
      | '-' :: d => (pyDigits d).isSome
      | d => (pyDigits d).isSome
  mantOk && expOk

/-- Models whether Python `float(value)` succeeds (ASCII forms; the numeric
value itself is not needed by any claim, so the module's `cooldown` keeps
the accepted literal).  `false` models a raised `ValueError`. -/
def pyFloatAccepts (s : String) : Bool :=
  let l := pyStripWS s.toList
  let body :=
    match l with
    | '+' :: t => t
    | '-' :: t => t
    | t => t
  let low := body.map Char.toLower
  if low = "inf".toList ∨ low = "infinity".toList ∨ low = "nan".toList then true
  else pyFloatNumber body

/-- The `settings` sub-dictionary of the blueprint built by
`skellify_message`: `name` and `author` are set on construction, the other
keys exist only after the corresponding `-k=v` token assigned them.
`cooldown` keeps the accepted literal of `float(value)` (its numeric value
is examined by no claim). -/
structure Settings where
  name : String
  author : String
  permission_level : Option Int
  cooldown : Option String
  enabled : Option Bool
deriving DecidableEq

/-- The blueprint dictionary (`skeleton`) of `skellify_message`, with its
keys `r`, `v`, `c`, `a`, `u`, `alias` and `settings`. -/
structure Skeleton where
  r : List String
  v : List String
  c : List String
  a : List String
  u : List String
  «alias» : List String
  settings : Settings
deriving DecidableEq

/-- The failure branches of `skellify_message` (each returns Python `None`;
the constructors record which `except`/`else` branch fired, named after the
spec's error taxonomy):
* `MalformedArgument` — `except AttributeError` in the `$` branch
  (log `has bad argument`): `search` returned `None`, or
  `skeleton['settings']` (a dict) has no `append`;
* `UnknownArgumentKind` — `except KeyError` in the `$` branch
  (log `encountered undefined argument`);
* `MalformedSetting` — `except AttributeError` in the `-` branch
  (log `has bad setting`);
* `UnknownSetting` — the final `else` of the setting chain
  (log `invalid setting`);
* `InvalidSettingValue` — `except ValueError` in the `-` branch
  (log `can not convert setting value`). -/
inductive ParseError where
  | MalformedArgument
  | UnknownArgumentKind
  | MalformedSetting
  | UnknownSetting
  | InvalidSettingValue
deriving DecidableEq

/-- Modelled from the spec: `symbot.util.strings.stringify` (not under
`src/`), the sanitizer applied to `settings.name` and `settings.author`;
the spec leaves the sanitization itself unspecified ("a sanitized form"),
so the theorems below take the sanitizer as an arbitrary parameter and this
definition only instantiates witnesses. -/
def stringify (s : String) : String := s

/-- The incoming message contract consumed by the module: `user` is the
requester identity, `context` the whitespace-tokenized arguments
(`context[0]` operation, `context[1]` command name, `context[2:]` content). -/
structure Message where
  user : String
  context : List String
deriving DecidableEq

/-- The initial `skeleton` dictionary literal of `skellify_message`. -/
def initSkeleton (stringifyF : String → String) (user name : String) : Skeleton :=
  { r := [], v := [], c := [], a := [], u := [], «alias» := [],
    settings :=
      { name := stringifyF name, author := stringifyF user,
        permission_level := none, cooldown := none, enabled := none } }

/-- One iteration of the `for s in msg.context[2:]` loop of
`skellify_message`, acting on the current skeleton. -/
def procToken (sk : Skeleton) (s : String) : Except ParseError Skeleton :=
  if pyStartsWith s '$' then
    match argExtractorSearch s with
    | none => Except.error ParseError.MalformedArgument
    | some (arg, value) =>
      if arg = "r" then
        Except.ok { sk with r := sk.r ++ [value, "\x7b" ++ value ++ "\x7d"] }
      else if arg = "v" then
        Except.ok { sk with v := sk.v ++ [value], r := sk.r ++ ["\x7b" ++ value ++ "\x7d"] }
      else if arg = "c" then
        Except.ok { sk with c := sk.c ++ [value], r := sk.r ++ ["\x7b" ++ value ++ "\x7d"] }
      else if arg = "a" then
        Except.ok { sk with a := sk.a ++ [value], r := sk.r ++ ["\x7b" ++ value ++ "\x7d"] }
      else if arg = "u" then
        Except.ok { sk with u := sk.u ++ [value], r := sk.r ++ ["\x7b" ++ value ++ "\x7d"] }
      else if arg = "alias" then
        Except.ok { sk with «alias» := sk.«alias» ++ [value], r := sk.r ++ ["\x7b" ++ value ++ "\x7d"] }
      else if arg = "settings" then
        Except.error ParseError.MalformedArgument
      else
        Except.error ParseError.UnknownArgumentKind
  else if pyStartsWith s '-' then
    match settingExtractorSearch s with
    | none => Except.error ParseError.MalformedSetting
    | some (setting, value) =>
      if setting = "ul" then
        match pyInt value with
        | some n => Except.ok { sk with settings := { sk.settings with permission_level := some n } }
        | none => Except.error ParseError.InvalidSettingValue
      else if setting = "cd" then
        if pyFloatAccepts value then
          Except.ok { sk with settings := { sk.settings with cooldown := some value } }
        else Except.error ParseError.InvalidSettingValue
      else if setting = "id" then
        Except.ok { sk with settings := { sk.settings with name := value } }
      else if setting = "on" then
        Except.ok { sk with settings := { sk.settings with enabled := some (pyLower value == "true") } }
      else
        Except.error ParseError.UnknownSetting
  else
    Except.ok { sk with r := sk.r ++ [s] }

/-- The `for` loop of `skellify_message`: the first failing token aborts the
whole parse (the method `return`s `None` from inside the loop). -/
def runTokens (sk : Skeleton) : List String → Except ParseError Skeleton
  | [] => Except.ok sk
  | t :: ts =>
    match procToken sk t with
    | Except.ok sk' => runTokens sk' ts
    | Except.error e => Except.error e

/-- `Command.skellify_message(self, msg, name, operation)`: builds the
initial skeleton from the sanitized `name` and `msg.user`, then folds the
loop body over `msg.context[2:]`.  The `operation` argument is used only in
log strings and does not influence the result. -/
def skellify_message (stringifyF : String → String) (msg : Message)
    (name operation : String) : Except ParseError Skeleton :=
  runTokens (initSkeleton stringifyF msg.user name) (msg.context.drop 2)

/-- Whether a token would be read by the setting branch as an assignment to
`key`: it starts with `-` and the (greedy) setting extraction yields `key`. -/
def hasSettingKey (key t : String) : Bool :=
  match settingExtractorSearch t with
  | some p => p.1 == key
  | none => false

/-- The placeholder list of the skeleton selected by a `$`-kind tag
(the spec's variable/counter/argument/user/alias kinds). -/
def kindList (kind : String) (sk : Skeleton) : List String :=
  if kind = "v" then sk.v
  else if kind = "c" then sk.c
  else if kind = "a" then sk.a
  else if kind = "u" then sk.u
  else if kind = "alias" then sk.«alias»
  else []

/-- Every placeholder list of `sk'` extends the corresponding list of `sk`. -/
def listsExtend (sk sk' : Skeleton) : Prop :=
  (∃ d, sk'.r = sk.r ++ d) ∧ (∃ d, sk'.v = sk.v ++ d) ∧ (∃ d, sk'.c = sk.c ++ d) ∧
    (∃ d, sk'.a = sk.a ++ d) ∧ (∃ d, sk'.u = sk.u ++ d) ∧
    (∃ d, sk'.«alias» = sk.«alias» ++ d)

/-- Per-token provenance of the settings fields: a step leaves a field
unchanged unless the token assigns the corresponding key. -/
def settingsTrack (sk sk' : Skeleton) (t : String) : Prop :=
  sk'.settings.author = sk.settings.author ∧
    (sk'.settings.name = sk.settings.name ∨ hasSettingKey "id" t = true) ∧
    (sk'.settings.permission_level = sk.settings.permission_level ∨
      hasSettingKey "ul" t = true) ∧
    (sk'.settings.cooldown = sk.settings.cooldown ∨ hasSettingKey "cd" t = true) ∧
    (sk'.settings.enabled = sk.settings.enabled ∨ hasSettingKey "on" t = true)

/-- A live command as the dispatcher sees it: `command.permission_level` and
`command.author` are read by `delcom`'s authorization gate, and `file`
stands for the artifact path `get_file(command)` derives from the command's
module (modelled as data carried by the command, per spec §3
`artifact_location`). -/
structure CmdInfo where
  permission_level : Int
  author : String
  file : String
deriving DecidableEq

/-- Modelled from the spec: the Command Registry (spec §4.3) held by the
control collaborator (`self.control.commands` / `control.get_command`,
whose source is not under `src/`): a mapping from command name to live
command with exact-match lookup; `del control.commands[name]` removes the
entry for `name` and nothing else. -/
abbrev Registry := String → Option CmdInfo

/-- Observable effects of a dispatcher run, in execution order.
`builderCreate` models the call `builder.create_command(skeleton)` (the
Builder collaborator persists the artifact and registers the command, spec
§4.2 — the only registry writer during `add`); `registryRemove` models
`del self.control.commands[name]`; `fileRemove` models
`os.remove(self.get_file(command))`; `respond` models
`control.respond(text)`; `parseInvoked` marks the call to
`skellify_message`. -/
inductive Effect where
  | parseInvoked
  | builderCreate (skeleton : Skeleton)
  | registryRemove (nm : String)
  | fileRemove (path : String)
  | respond (text : String)
deriving DecidableEq

/-- `Command.delcom(self, msg)`: extract `msg.context[1]` (abort on
`IndexError`), look the name up (abort when absent), then — when
`control.permissions.check_meta(command.permission_level, msg.user)` holds
or `command.author == msg.user` — delete the registry entry and then the
command file.  `checkMeta` models the permission collaborator of spec §6.
Returns the resulting registry and the effects in execution order; `delcom`
produces no chat response on any path. -/
def delcom (checkMeta : Int → String → Bool) (registry : Registry)
    (msg : Message) : Registry × List Effect :=
  match msg.context[1]? with
  | none => (registry, [])
  | some name =>
    match registry name with
    | none => (registry, [])
    | some command =>
      if checkMeta command.permission_level msg.user || command.author == msg.user then
        (fun n => if n == name then none else registry n,
         [Effect.registryRemove name, Effect.fileRemove command.file])
      else
        (registry, [])

/-- `Command.addcom(self, msg)`: extract `msg.context[1]` (abort on
`IndexError`), abort when `control.get_command(name)` is truthy, abort when
`msg.context[2]` raises `IndexError`; otherwise parse with
`skellify_message` and, when it returns a (truthy) skeleton, call
`builder.create_command(skeleton)` and respond
`f'{msg.user} has added {name} to commands'`.  `addcom` itself never
touches the registry; registry insertion happens only inside the Builder
(spec §3 ownership), i.e. only when `builderCreate` is among the effects. -/
def addcom (stringifyF : String → String) (registry : Registry)
    (msg : Message) : List Effect :=
  match msg.context[1]? with
  | none => []
  | some name =>
    if (registry name).isSome then []
    else
      match msg.context[2]? with
      | none => []
      | some _ =>
        Effect.parseInvoked ::
          match skellify_message stringifyF msg name "add" with
          | Except.ok skeleton =>
            [Effect.builderCreate skeleton,
             Effect.respond (msg.user ++ " has added " ++ name ++ " to commands")]
          | Except.error _ => []

/-! ### Basic facts about the string helpers -/

theorem toList_append (s t : String) : (s ++ t).toList = s.toList ++ t.toList := rfl

theorem asString_toList (s : String) : s.toList.asString = s := rfl

theorem lastIdxOf_append (c : Char) (xs ys : List Char) :
    lastIdxOf c (xs ++ ys) =
      match lastIdxOf c ys with
      | some k => some (xs.length + k)
      | none => lastIdxOf c xs := by
  induction xs with
  | nil => cases h : lastIdxOf c ys <;> simp [h, lastIdxOf]
  | cons a t ih =>
    simp only [List.cons_append, lastIdxOf, List.append_eq]
    rw [ih]
    cases h : lastIdxOf c ys with
    | none => cases h' : lastIdxOf c t <;> simp [lastIdxOf, h']
    | some k =>
      simp only [h]
      simp only [List.length_cons]
      simp
      omega

theorem lastIdxOf_eq_none (c : Char) (l : List Char) :
    lastIdxOf c l = none ↔ c ∉ l := by
  induction l with
  | nil => simp [lastIdxOf]
  | cons a t ih =>
    simp only [lastIdxOf, List.mem_cons]
    cases h : lastIdxOf c t with
    | some k =>
      have hct : c ∈ t := by
        by_contra hc
        rw [← ih] at hc
        simp [hc] at h
      simp [hct]
    | none =>
      have hct : c ∉ t := ih.mp h
      by_cases hac : a = c
      · simp [hac, hct]
      · simp [hac, hct, Ne.symm hac]

theorem lastIdxOf_getElem (c : Char) (l : List Char) (k : Nat)
    (h : lastIdxOf c l = some k) : l[k]? = some c := by
  induction l generalizing k with
  | nil => simp [lastIdxOf] at h
  | cons a t ih =>
    rw [lastIdxOf] at h
    cases h' : lastIdxOf c t with
    | some k' =>
      rw [h'] at h
      simp only [Option.some.injEq] at h
      subst h
      simpa using ih k' h'
    | none =>
      rw [h'] at h
      by_cases hac : a = c
      · rw [if_pos hac] at h
        simp only [Option.some.injEq] at h
        subst h
        simp [hac]
      · rw [if_neg hac] at h
        cases h

/-- Greedy-match characterization of the `$`-token regular expression: the
first group runs up to the last `{` preceding the last `}`, the second up
to the last `}`. -/
theorem argExtractCore_eq (kl vl wl : List Char)
    (h1 : '{' ∉ vl) (h2 : '}' ∉ wl) :
    argExtractCore ('$' :: kl ++ '{' :: vl ++ '}' :: wl) = some (kl, vl) := by
  have hL : '$' :: kl ++ '{' :: vl ++ '}' :: wl
      = (('$' :: kl) ++ '{' :: vl) ++ '}' :: wl := by simp
  have hlen : (('$' :: kl) ++ '{' :: vl).length = kl.length + vl.length + 2 := by
    simp; omega
  have hone : lastIdxOf '}' ('}' :: wl) = some 0 := by
    rw [lastIdxOf, (lastIdxOf_eq_none '}' wl).mpr h2]
    simp
  have hj : lastIdxOf '}' ('$' :: kl ++ '{' :: vl ++ '}' :: wl)
      = some (kl.length + vl.length + 2) := by
    rw [hL, lastIdxOf_append, hone, hlen]
  have htake : ('$' :: kl ++ '{' :: vl ++ '}' :: wl).take (kl.length + vl.length + 2)
      = ('$' :: kl) ++ '{' :: vl := by
    rw [hL]
    exact List.take_left' hlen
  have hbrace : lastIdxOf '{' ('{' :: vl) = some 0 := by
    rw [lastIdxOf, (lastIdxOf_eq_none '{' vl).mpr h1]
    simp
  have hi : lastIdxOf '{' (('$' :: kl) ++ '{' :: vl) = some (kl.length + 1) := by
    rw [lastIdxOf_append, hbrace]
    simp
  have hg1 : (('$' :: kl ++ '{' :: vl ++ '}' :: wl).take (kl.length + 1)).drop 1 = kl := by
    have : ('$' :: kl ++ '{' :: vl ++ '}' :: wl).take (kl.length + 1) = '$' :: kl := by
      have h' : ('$' :: kl).length = kl.length + 1 := by simp
      calc ('$' :: kl ++ '{' :: vl ++ '}' :: wl).take (kl.length + 1)
          = (('$' :: kl) ++ ('{' :: vl ++ '}' :: wl)).take (kl.length + 1) := by simp
        _ = '$' :: kl := List.take_left' h'
    rw [this]
    rfl
  have hg2 : ((('$' :: kl) ++ '{' :: vl).drop (kl.length + 2)) = vl := by
    have h' : (('$' :: kl) ++ ['{']).length = kl.length + 2 := by simp
    calc (('$' :: kl) ++ '{' :: vl).drop (kl.length + 2)
        = ((('$' :: kl) ++ ['{']) ++ vl).drop (kl.length + 2) := by simp
      _ = vl := List.drop_left' h'
  unfold argExtractCore
  rw [if_pos (by rfl), hj]
  simp only [htake, hi, hg1, hg2]

/-- Greedy-match characterization of the setting regular expression: the
key runs up to the last `=`, the value is the remainder. -/
theorem settingExtractCore_eq (kl vl : List Char) (h : '=' ∉ vl) :
    settingExtractCore ('-' :: kl ++ '=' :: vl) = some (kl, vl) := by
  have hone : lastIdxOf '=' ('=' :: vl) = some 0 := by
    rw [lastIdxOf, (lastIdxOf_eq_none '=' vl).mpr h]
    simp
  have hk : lastIdxOf '=' ('-' :: kl ++ '=' :: vl) = some (kl.length + 1) := by
    have hL : '-' :: kl ++ '=' :: vl = ('-' :: kl) ++ '=' :: vl := by simp
    rw [hL, lastIdxOf_append, hone]
    simp
  have hg1 : (('-' :: kl ++ '=' :: vl).take (kl.length + 1)).drop 1 = kl := by
    have : ('-' :: kl ++ '=' :: vl).take (kl.length + 1) = '-' :: kl := by
      have h' : ('-' :: kl).length = kl.length + 1 := by simp
      calc ('-' :: kl ++ '=' :: vl).take (kl.length + 1)
          = (('-' :: kl) ++ '=' :: vl).take (kl.length + 1) := by simp
        _ = '-' :: kl := List.take_left' h'
    rw [this]
    rfl
  have hg2 : ('-' :: kl ++ '=' :: vl).drop (kl.length + 2) = vl := by
    have h' : (('-' :: kl) ++ ['=']).length = kl.length + 2 := by simp
    calc ('-' :: kl ++ '=' :: vl).drop (kl.length + 2)
        = ((('-' :: kl) ++ ['=']) ++ vl).drop (kl.length + 2) := by simp
      _ = vl := List.drop_left' h'
  unfold settingExtractCore
  rw [if_pos (by rfl), hk]
  simp only [hg1, hg2]

/-- String-level extraction: a token whose character list decomposes as
`$ kind { v } w` with no `{` in `v` and no `}` in `w` extracts `(kind, v)`. -/
theorem argExtractorSearch_eq (t kind v : String) (wl : List Char)
    (hts : t.toList = '$' :: kind.toList ++ '{' :: v.toList ++ '}' :: wl)
    (h1 : '{' ∉ v.toList) (h2 : '}' ∉ wl) :
    argExtractorSearch t = some (kind, v) := by
  unfold argExtractorSearch
  rw [hts, argExtractCore_eq _ _ _ h1 h2]
  rfl

theorem settingExtractorSearch_eq (t key v : String)
    (hts : t.toList = '-' :: key.toList ++ '=' :: v.toList)
    (h : '=' ∉ v.toList) :
    settingExtractorSearch t = some (key, v) := by
  unfold settingExtractorSearch
  rw [hts, settingExtractCore_eq _ _ h]
  rfl

/-- The `$`-token regular expression has no match exactly on tokens without
a `{` later followed by a `}` (here: the "no match" direction). -/
theorem argExtractorSearch_none (t : String)
    (h : ∀ i j : Nat, i < j → ¬(t.toList[i]? = some '{' ∧ t.toList[j]? = some '}')) :
    argExtractorSearch t = none := by
  unfold argExtractorSearch argExtractCore
  by_cases hh : t.toList.head? = some '$'
  · rw [if_pos hh]
    cases hj : lastIdxOf '}' t.toList with
    | none => rfl
    | some j =>
      simp only []
      cases hi : lastIdxOf '{' (t.toList.take j) with
      | none => rfl
      | some i =>
        exfalso
        have h1 := lastIdxOf_getElem _ _ _ hi
        have h2 := lastIdxOf_getElem _ _ _ hj
        obtain ⟨hlen, -⟩ := List.getElem?_eq_some_iff.mp h1
        have hlt : i < j := by
          have := List.length_take j t.toList
          omega
        have h1' : t.toList[i]? = some '{' := by
          rw [List.getElem?_take_of_lt hlt] at h1
          exact h1
        exact h i j hlt ⟨h1', h2⟩
  · rw [if_neg hh]
    rfl

/-! ### Facts about the token loop -/

theorem runTokens_append (sk : Skeleton) (ts us : List String) :
    runTokens sk (ts ++ us) =
      match runTokens sk ts with
      | Except.ok sk' => runTokens sk' us
      | Except.error e => Except.error e := by
  induction ts generalizing sk with
  | nil => simp [runTokens]
  | cons t ts ih =>
    simp only [List.cons_append, runTokens]
    cases procToken sk t <;> simp [ih]

theorem runTokens_append_ok (sk sk0 : Skeleton) (ts us : List String)
    (h : runTokens sk ts = Except.ok sk0) :
    runTokens sk (ts ++ us) = runTokens sk0 us := by
  rw [runTokens_append, h]

/-- Splitting a parse at a successful prefix of the content tokens. -/
theorem skellify_of_split (f : String → String) (msg : Message) (name op : String)
    (pre rest : List String) (sk0 : Skeleton)
    (hctx : msg.context.drop 2 = pre ++ rest)
    (hpre : runTokens (initSkeleton f msg.user name) pre = Except.ok sk0) :
    skellify_message f msg name op = runTokens sk0 rest := by
  unfold skellify_message
  rw [hctx]
  exact runTokens_append_ok _ _ _ _ hpre

theorem procToken_literal (sk : Skeleton) (t : String)
    (h1 : pyStartsWith t '$' = false) (h2 : pyStartsWith t '-' = false) :
    procToken sk t = Except.ok { sk with r := sk.r ++ [t] } := by
  simp [procToken, h1, h2]

theorem procToken_arg_none (sk : Skeleton) (t : String)
    (h : pyStartsWith t '$' = true) (he : argExtractorSearch t = none) :
    procToken sk t = Except.error ParseError.MalformedArgument := by
  simp [procToken, h, he]

theorem procToken_unknown_kind (sk : Skeleton) (t kind value : String)
    (h : pyStartsWith t '$' = true) (he : argExtractorSearch t = some (kind, value))
    (hk : kind ∉ (["r", "v", "c", "a", "u", "alias", "settings"] : List String)) :
    procToken sk t = Except.error ParseError.UnknownArgumentKind := by
  obtain ⟨n1, n2, n3, n4, n5, n6, n7⟩ :
      kind ≠ "r" ∧ kind ≠ "v" ∧ kind ≠ "c" ∧ kind ≠ "a" ∧ kind ≠ "u" ∧
        kind ≠ "alias" ∧ kind ≠ "settings" := by
    simpa using hk
  simp [procToken, h, he, n1, n2, n3, n4, n5, n6, n7]

/-- A successfully processed `$kind{value}` token with a recognized list
kind appends the marker to `r` and the value to the kind's list. -/
theorem procToken_placeholder (sk : Skeleton) (t kind value : String)
    (h : pyStartsWith t '$' = true) (he : argExtractorSearch t = some (kind, value))
    (hk : kind ∈ (["v", "c", "a", "u", "alias"] : List String)) :
    ∃ sk1, procToken sk t = Except.ok sk1 ∧
      sk1.r = sk.r ++ ["\x7b" ++ value ++ "\x7d"] ∧
      kindList kind sk1 = kindList kind sk ++ [value] := by
  fin_cases hk
  · exact ⟨{ sk with v := sk.v ++ [value], r := sk.r ++ ["\x7b" ++ value ++ "\x7d"] },
      by simp [procToken, h, he], by simp, by simp [kindList]⟩
  · exact ⟨{ sk with c := sk.c ++ [value], r := sk.r ++ ["\x7b" ++ value ++ "\x7d"] },
      by simp [procToken, h, he], by simp, by simp [kindList]⟩
  · exact ⟨{ sk with a := sk.a ++ [value], r := sk.r ++ ["\x7b" ++ value ++ "\x7d"] },
      by simp [procToken, h, he], by simp, by simp [kindList]⟩
  · exact ⟨{ sk with u := sk.u ++ [value], r := sk.r ++ ["\x7b" ++ value ++ "\x7d"] },
      by simp [procToken, h, he], by simp, by simp [kindList]⟩
  · exact ⟨{ sk with «alias» := sk.«alias» ++ [value], r := sk.r ++ ["\x7b" ++ value ++ "\x7d"] },
      by simp [procToken, h, he], by simp, by simp [kindList]⟩

theorem runTokens_cons (sk : Skeleton) (t : String) (ts : List String) :
    runTokens sk (t :: ts) =
      match procToken sk t with
      | Except.ok sk1 => runTokens sk1 ts
      | Except.error e => Except.error e := rfl

theorem listsExtend_trans (a b c : Skeleton)
    (h1 : listsExtend a b) (h2 : listsExtend b c) : listsExtend a c := by
  obtain ⟨⟨d1, e1⟩, ⟨d2, e2⟩, ⟨d3, e3⟩, ⟨d4, e4⟩, ⟨d5, e5⟩, ⟨d6, e6⟩⟩ := h1
  obtain ⟨⟨f1, g1⟩, ⟨f2, g2⟩, ⟨f3, g3⟩, ⟨f4, g4⟩, ⟨f5, g5⟩, ⟨f6, g6⟩⟩ := h2
  exact ⟨⟨d1 ++ f1, by rw [g1, e1, List.append_assoc]⟩,
    ⟨d2 ++ f2, by rw [g2, e2, List.append_assoc]⟩,
    ⟨d3 ++ f3, by rw [g3, e3, List.append_assoc]⟩,
    ⟨d4 ++ f4, by rw [g4, e4, List.append_assoc]⟩,
    ⟨d5 ++ f5, by rw [g5, e5, List.append_assoc]⟩,
    ⟨d6 ++ f6, by rw [g6, e6, List.append_assoc]⟩⟩

theorem procToken_extend (sk : Skeleton) (t : String) (sk' : Skeleton)
    (h : procToken sk t = Except.ok sk') : listsExtend sk sk' := by
  unfold procToken at h
  repeat' split at h
  all_goals first
    | exact Except.noConfusion h
    | (injection h with h2
       subst h2
       simp only [listsExtend]
       refine ⟨?_, ?_, ?_, ?_, ?_, ?_⟩ <;>
         first
           | exact ⟨[], (List.append_nil _).symm⟩
           | exact ⟨_, rfl⟩)

theorem procToken_track (sk : Skeleton) (t : String) (sk' : Skeleton)
    (h : procToken sk t = Except.ok sk') : settingsTrack sk sk' t := by
  unfold procToken at h
  repeat' split at h
  all_goals first
    | exact Except.noConfusion h
    | (injection h with h2
       subst h2
       first
         | exact ⟨rfl, Or.inl rfl, Or.inl rfl, Or.inl rfl, Or.inl rfl⟩
         | (refine ⟨rfl, ?_, ?_, ?_, ?_⟩ <;>
             first
               | exact Or.inl rfl
               | (right
                  simp_all [hasSettingKey])))

theorem track_or_combine {α : Type} {x0 x1 x2 : α} {t key : String} {ts : List String}
    (h1 : x1 = x0 ∨ hasSettingKey key t = true)
    (h2 : x2 = x1 ∨ ∃ t' ∈ ts, hasSettingKey key t' = true) :
    x2 = x0 ∨ ∃ t' ∈ t :: ts, hasSettingKey key t' = true := by
  rcases h2 with h2 | ⟨t', ht', hkk⟩
  · rcases h1 with h1 | h1
    · exact Or.inl (h2.trans h1)
    · exact Or.inr ⟨t, List.mem_cons_self t ts, h1⟩
  · exact Or.inr ⟨t', List.mem_cons_of_mem _ ht', hkk⟩

theorem runTokens_extend (ts : List String) : ∀ sk sk' : Skeleton,
    runTokens sk ts = Except.ok sk' → listsExtend sk sk' := by
  induction ts with
  | nil =>
    intro sk sk' h
    injection h with h2
    subst h2
    exact ⟨⟨[], by simp⟩, ⟨[], by simp⟩, ⟨[], by simp⟩, ⟨[], by simp⟩,
      ⟨[], by simp⟩, ⟨[], by simp⟩⟩
  | cons t ts ih =>
    intro sk sk' h
    rw [runTokens_cons] at h
    cases hp : procToken sk t with
    | error e =>
      rw [hp] at h
      have h' : (Except.error e : Except ParseError Skeleton) = Except.ok sk' := h
      cases h'
    | ok sk1 =>
      rw [hp] at h
      have h' : runTokens sk1 ts = Except.ok sk' := h
      exact listsExtend_trans _ _ _ (procToken_extend _ _ _ hp) (ih sk1 sk' h')

theorem runTokens_track (ts : List String) : ∀ sk sk' : Skeleton,
    runTokens sk ts = Except.ok sk' →
      sk'.settings.author = sk.settings.author ∧
        (sk'.settings.name = sk.settings.name ∨
          ∃ t ∈ ts, hasSettingKey "id" t = true) ∧
        (sk'.settings.permission_level = sk.settings.permission_level ∨
          ∃ t ∈ ts, hasSettingKey "ul" t = true) ∧
        (sk'.settings.cooldown = sk.settings.cooldown ∨
          ∃ t ∈ ts, hasSettingKey "cd" t = true) ∧
        (sk'.settings.enabled = sk.settings.enabled ∨
          ∃ t ∈ ts, hasSettingKey "on" t = true) := by
  induction ts with
  | nil =>
    intro sk sk' h
    injection h with h2
    subst h2
    simp
  | cons t ts ih =>
    intro sk sk' h
    rw [runTokens_cons] at h
    cases hp : procToken sk t with
    | error e =>
      rw [hp] at h
      have h' : (Except.error e : Except ParseError Skeleton) = Except.ok sk' := h
      cases h'
    | ok sk1 =>
      rw [hp] at h
      have h' : runTokens sk1 ts = Except.ok sk' := h
      obtain ⟨a1, n1, p1, c1, e1⟩ := procToken_track _ _ _ hp
      obtain ⟨a2, n2, p2, c2, e2⟩ := ih sk1 sk' h'
      exact ⟨a2.trans a1, track_or_combine n1 n2, track_or_combine p1 p2,
        track_or_combine c1 c2, track_or_combine e1 e2⟩

theorem kindList_extend (kind : String)
    (hk : kind ∈ (["v", "c", "a", "u", "alias"] : List String))
    (sk sk' : Skeleton) (h : listsExtend sk sk') :
    ∃ d, kindList kind sk' = kindList kind sk ++ d := by
  obtain ⟨-, hv, hc, ha, hu, hal⟩ := h
  fin_cases hk
  · simpa [kindList] using hv
  · simpa [kindList] using hc
  · simpa [kindList] using ha
  · simpa [kindList] using hu
  · simpa [kindList] using hal

/-- Character list of a well-formed `$kind{value}` token. -/
theorem token_toList (kind v : String) :
    ("$" ++ kind ++ "\x7b" ++ v ++ "\x7d").toList
      = '$' :: kind.toList ++ '{' :: v.toList ++ '}' :: ([] : List Char) := by
  simp only [toList_append]
  rw [show "$".toList = ['$'] from rfl, show "\x7b".toList = ['{'] from rfl,
    show "\x7d".toList = ['}'] from rfl]
  simp

theorem pyStartsWith_of_toList (t : String) (c : Char) (l : List Char)
    (h : t.toList = c :: l) : pyStartsWith t c = true := by
  have h' : t.data = c :: l := h
  simp [pyStartsWith, h']

theorem pyStartsWith_ne_of_toList (t : String) (c c' : Char) (l : List Char)
    (h : t.toList = c :: l) (hne : c ≠ c') : pyStartsWith t c' = false := by
  have h' : t.data = c :: l := h
  simp [pyStartsWith, h', hne]

/-- A token with no `{` at all contains no brace pair. -/
theorem noBracePair_of_no_open (t : String) (h : '{' ∉ t.toList) :
    ∀ i j : Nat, i < j → ¬(t.toList[i]? = some '{' ∧ t.toList[j]? = some '}') := by
  intro i j hij hc
  obtain ⟨hlt, he⟩ := List.getElem?_eq_some_iff.mp hc.1
  exact h (he ▸ List.getElem_mem hlt)

/-- A run over literal-only tokens appends them verbatim to `r`. -/
theorem runTokens_literal (ts : List String) : ∀ sk : Skeleton,
    (∀ s ∈ ts, pyStartsWith s '$' = false ∧ pyStartsWith s '-' = false) →
    runTokens sk ts = Except.ok { sk with r := sk.r ++ ts } := by
  induction ts with
  | nil =>
    intro sk h
    simp [runTokens]
  | cons t ts ih =>
    intro sk h
    obtain ⟨h1, h2⟩ := h t (List.mem_cons_self t ts)
    have hstep : runTokens sk (t :: ts) = runTokens { sk with r := sk.r ++ [t] } ts := by
      rw [runTokens_cons, procToken_literal sk t h1 h2]
    rw [hstep, ih _ (fun s hs => h s (List.mem_cons_of_mem _ hs))]
    simp

/-- The Python `or` of the authorization gate, as a proposition. -/
theorem delAuth_iff (checkMeta : Int → String → Bool) (cmd : CmdInfo) (user : String) :
    (checkMeta cmd.permission_level user || cmd.author == user) = true ↔
      (checkMeta cmd.permission_level user = true ∨ cmd.author = user) := by
  simp

/-! ### Claim theorems -/

/-- C3: for every token sequence in which no token starts with `$` and no
token starts with `-`, parsing succeeds and returns a blueprint whose
`response_template` (`r`) equals the input token sequence verbatim and whose
variable, counter, argument, user and alias lists are all empty. -/
theorem skellify_literal_tokens (f : String → String) (msg : Message)
    (name op : String)
    (h : ∀ s ∈ msg.context.drop 2,
      pyStartsWith s '$' = false ∧ pyStartsWith s '-' = false) :
    skellify_message f msg name op =
      Except.ok
        { r := msg.context.drop 2, v := [], c := [], a := [], u := [], «alias» := [],
          settings :=
            { name := f name, author := f msg.user, permission_level := none,
              cooldown := none, enabled := none } } := by
  unfold skellify_message
  rw [runTokens_literal _ _ h]
  rfl

theorem skellify_literal_tokens_witness :
    skellify_message stringify ⟨"alice", ["add", "greet", "Hello", "world"]⟩
        "greet" "add" =
      Except.ok
        { r := ["Hello", "world"], v := [], c := [], a := [], u := [], «alias» := [],
          settings :=
            { name := "greet", author := "alice", permission_level := none,
              cooldown := none, enabled := none } } :=
  skellify_literal_tokens stringify ⟨"alice", ["add", "greet", "Hello", "world"]⟩
    "greet" "add" (by decide)

/-- C9: the parser is deterministic — its result depends only on the
requester identity, the content tokens `context[2:]` and the command name
(the `operation` argument is used only for logging), so two runs on
identical inputs return structurally equal results. -/
theorem skellify_message_deterministic (f : String → String) (msg msg' : Message)
    (name name' op op' : String) (hu : msg.user = msg'.user)
    (hc : msg.context.drop 2 = msg'.context.drop 2) (hn : name = name') :
    skellify_message f msg name op = skellify_message f msg' name' op' := by
  unfold skellify_message initSkeleton
  rw [hu, hc, hn]

theorem skellify_message_deterministic_witness :
    skellify_message stringify ⟨"alice", ["add", "greet", "hi"]⟩ "greet" "add" =
      skellify_message stringify ⟨"alice", ["edit", "greet", "hi"]⟩ "greet" "edit" :=
  skellify_message_deterministic stringify _ _ _ _ _ _ rfl rfl rfl

/-- C8: every blueprint returned by a successful parse has
`settings.author = stringify(msg.user)`; `settings.name` is the sanitized
command name unless some `-id=...` token overrode it; and each of
`permission_level`, `cooldown`, `enabled` is present (`some`) only if a
token with setting key `ul`, `cd`, `on` respectively appeared among the
content tokens. -/
theorem skellify_settings_presence (f : String → String) (msg : Message)
    (name op : String) (sk : Skeleton)
    (h : skellify_message f msg name op = Except.ok sk) :
    sk.settings.author = f msg.user ∧
      ((∀ t ∈ msg.context.drop 2, hasSettingKey "id" t = false) →
        sk.settings.name = f name) ∧
      (sk.settings.permission_level ≠ none →
        ∃ t ∈ msg.context.drop 2, hasSettingKey "ul" t = true) ∧
      (sk.settings.cooldown ≠ none →
        ∃ t ∈ msg.context.drop 2, hasSettingKey "cd" t = true) ∧
      (sk.settings.enabled ≠ none →
        ∃ t ∈ msg.context.drop 2, hasSettingKey "on" t = true) := by
  unfold skellify_message at h
  obtain ⟨ha, hn, hp, hcd, hon⟩ := runTokens_track _ _ _ h
  refine ⟨ha, ?_, ?_, ?_, ?_⟩
  · intro hno
    rcases hn with hn | ⟨t, ht, hk⟩
    · exact hn
    · rw [hno t ht] at hk
      cases hk
  · intro hne
    rcases hp with hp | he
    · exact absurd hp hne
    · exact he
  · intro hne
    rcases hcd with hcd | he
    · exact absurd hcd hne
    · exact he
  · intro hne
    rcases hon with hon | he
    · exact absurd hon hne
    · exact he

theorem skellify_settings_presence_witness :
    (Skeleton.mk [] [] [] [] [] []
        (Settings.mk "greet" "alice" (some 5) none none)).settings.author = "alice" ∧
      (Skeleton.mk [] [] [] [] [] []
        (Settings.mk "greet" "alice" (some 5) none none)).settings.name = "greet" ∧
      ∃ t ∈ ["-ul=5"], hasSettingKey "ul" t = true := by
  have h := skellify_settings_presence stringify ⟨"alice", ["add", "greet", "-ul=5"]⟩
    "greet" "add"
    (Skeleton.mk [] [] [] [] [] [] (Settings.mk "greet" "alice" (some 5) none none))
    rfl
  exact ⟨h.1, h.2.1 (by decide), h.2.2.1 (by decide)⟩

/-- C4 counterexample: in the input `["-on=true", "$u\x7bx\x7d"]` the well-formed
placeholder token `$u{x}` occupies ordinal position 1, yet the successful
parse puts the marker `{x}` at position 0 of `r` (`r` has no entry at
position 1 at all), because the preceding setting token contributes no
template entry. -/
theorem skellify_marker_position_cex :
    skellify_message stringify ⟨"alice", ["add", "greet", "-on=true", "$u\x7bx\x7d"]⟩
        "greet" "add" =
      Except.ok
        { r := ["\x7bx\x7d"], v := [], c := [], a := [], u := ["x"], «alias» := [],
          settings :=
            { name := "greet", author := "alice", permission_level := none,
              cooldown := none, enabled := some true } } ∧
      (["-on=true", "$u\x7bx\x7d"] : List String)[1]? = some "$u\x7bx\x7d" ∧
      (["\x7bx\x7d"] : List String)[1]? = none :=
  ⟨rfl, rfl, rfl⟩

/-- C4 (amended): for a well-formed `$kind{value}` token (recognized list
kind, brace-free value) at some position of the content tokens, a
successful parse appends `value` to the list for that kind (at the next
free position of that list) and places the marker `{value}` in
`response_template` at the position equal to the number of template entries
produced by the preceding tokens; that position equals the token's ordinal
position whenever all preceding tokens are plain literals (setting tokens
contribute no entry and `$r{...}` tokens contribute two, shifting the
marker). -/
theorem skellify_placeholder_append (f : String → String) (msg : Message)
    (name op : String) (pre suf : List String) (kind value : String)
    (sk0 sk : Skeleton)
    (hctx : msg.context.drop 2 = pre ++ ("$" ++ kind ++ "\x7b" ++ value ++ "\x7d") :: suf)
    (hkind : kind ∈ (["v", "c", "a", "u", "alias"] : List String))
    (hval : '{' ∉ value.toList)
    (hpre : runTokens (initSkeleton f msg.user name) pre = Except.ok sk0)
    (hok : skellify_message f msg name op = Except.ok sk) :
    (kindList kind sk)[(kindList kind sk0).length]? = some value ∧
      sk.r[sk0.r.length]? = some ("\x7b" ++ value ++ "\x7d") ∧
      ((∀ s ∈ pre, pyStartsWith s '$' = false ∧ pyStartsWith s '-' = false) →
        sk0.r.length = pre.length) := by
  have he : argExtractorSearch ("$" ++ kind ++ "\x7b" ++ value ++ "\x7d")
      = some (kind, value) :=
    argExtractorSearch_eq _ _ _ [] (token_toList kind value) hval (by simp)
  have hst : pyStartsWith ("$" ++ kind ++ "\x7b" ++ value ++ "\x7d") '$' = true :=
    pyStartsWith_of_toList _ _ _ (token_toList kind value)
  obtain ⟨sk1, hp, h1r, h1k⟩ := procToken_placeholder sk0 _ kind value hst he hkind
  rw [skellify_of_split f msg name op pre _ sk0 hctx hpre, runTokens_cons, hp] at hok
  have hok' : runTokens sk1 suf = Except.ok sk := hok
  have hext := runTokens_extend suf sk1 sk hok'
  obtain ⟨dk, hdk⟩ := kindList_extend kind hkind sk1 sk hext
  obtain ⟨⟨dr, hdr⟩, -, -, -, -, -⟩ := hext
  refine ⟨?_, ?_, ?_⟩
  · rw [hdk, h1k, List.append_assoc, List.getElem?_append_right (Nat.le_refl _)]
    simp
  · rw [hdr, h1r, List.append_assoc, List.getElem?_append_right (Nat.le_refl _)]
    simp
  · intro hlit
    have hl := runTokens_literal pre (initSkeleton f msg.user name) hlit
    rw [hpre] at hl
    injection hl with h2
    rw [h2]
    simp [initSkeleton]

theorem skellify_placeholder_append_witness :
    (kindList "u" (Skeleton.mk ["Hi", "\x7bx\x7d"] [] [] [] ["x"] []
        (Settings.mk "greet" "alice" none none none)))[0]? = some "x" ∧
      (Skeleton.mk ["Hi", "\x7bx\x7d"] [] [] [] ["x"] []
        (Settings.mk "greet" "alice" none none none)).r[1]? = some "\x7bx\x7d" ∧
      (Skeleton.mk ["Hi"] [] [] [] [] []
        (Settings.mk "greet" "alice" none none none)).r.length = 1 := by
  have h := skellify_placeholder_append stringify
    ⟨"alice", ["add", "greet", "Hi", "$u\x7bx\x7d"]⟩ "greet" "add" ["Hi"] [] "u" "x"
    (Skeleton.mk ["Hi"] [] [] [] [] [] (Settings.mk "greet" "alice" none none none))
    (Skeleton.mk ["Hi", "\x7bx\x7d"] [] [] [] ["x"] []
      (Settings.mk "greet" "alice" none none none))
    rfl (by decide) (by decide) rfl rfl
  exact ⟨h.1, h.2.1, h.2.2 (by decide)⟩

/-- C10: a token of shape `$r{x}` is accepted — `r` is a key of the
blueprint container — and appends both the raw value and the brace-wrapped
marker, in that order, to `response_template`. -/
theorem skellify_r_token (f : String → String) (msg : Message) (name op : String)
    (pre : List String) (value : String) (sk0 : Skeleton)
    (hctx : msg.context.drop 2 = pre ++ ["$r\x7b" ++ value ++ "\x7d"])
    (hval : '{' ∉ value.toList)
    (hpre : runTokens (initSkeleton f msg.user name) pre = Except.ok sk0) :
    skellify_message f msg name op =
      Except.ok { sk0 with r := sk0.r ++ [value, "\x7b" ++ value ++ "\x7d"] } := by
  have htok : ("$r\x7b" ++ value ++ "\x7d") = "$" ++ "r" ++ "\x7b" ++ value ++ "\x7d" := rfl
  have he : argExtractorSearch ("$r\x7b" ++ value ++ "\x7d") = some ("r", value) := by
    rw [htok]
    exact argExtractorSearch_eq _ _ _ [] (token_toList "r" value) hval (by simp)
  have hst : pyStartsWith ("$r\x7b" ++ value ++ "\x7d") '$' = true := by
    rw [htok]
    exact pyStartsWith_of_toList _ _ _ (token_toList "r" value)
  rw [skellify_of_split f msg name op pre _ sk0 hctx hpre]
  simp [runTokens, procToken, hst, he]

theorem skellify_r_token_witness :
    skellify_message stringify ⟨"alice", ["add", "greet", "$r\x7bx\x7d"]⟩ "greet" "add" =
      Except.ok
        { r := ["x", "\x7bx\x7d"], v := [], c := [], a := [], u := [], «alias» := [],
          settings :=
            { name := "greet", author := "alice", permission_level := none,
              cooldown := none, enabled := none } } :=
  skellify_r_token stringify ⟨"alice", ["add", "greet", "$r\x7bx\x7d"]⟩ "greet" "add"
    [] "x" (initSkeleton stringify "alice" "greet") rfl (by decide) rfl

/-- C5 counterexample: `$settings{x}` is a well-formed `$kind{value}` token
whose kind is not a recognized placeholder kind, yet the parse fails with
the `has bad argument` branch (`AttributeError`: the `settings` entry of
the container is a dict without `append`), i.e. `MalformedArgument`, not
`UnknownArgumentKind`. -/
theorem skellify_settings_kind_cex :
    skellify_message stringify ⟨"alice", ["add", "greet", "$settings\x7bx\x7d"]⟩
        "greet" "add" =
      Except.error ParseError.MalformedArgument ∧
      ParseError.MalformedArgument ≠ ParseError.UnknownArgumentKind :=
  ⟨rfl, by decide⟩

/-- C5 (amended): a well-formed `$kind{value}` token whose kind is not one
of the blueprint container keys (`r`, `v`, `c`, `a`, `u`, `alias`,
`settings`) makes the whole parse fail with `UnknownArgumentKind` (the
`KeyError` branch) and return no blueprint, regardless of any other valid
tokens before or after it; for kind `settings` the parse instead fails with
`MalformedArgument`, and kind `r` is accepted. -/
theorem skellify_unknown_kind (f : String → String) (msg : Message)
    (name op : String) (pre suf : List String) (kind value : String)
    (sk0 : Skeleton)
    (hctx : msg.context.drop 2 = pre ++ ("$" ++ kind ++ "\x7b" ++ value ++ "\x7d") :: suf)
    (hpre : runTokens (initSkeleton f msg.user name) pre = Except.ok sk0)
    (hval : '{' ∉ value.toList)
    (hkind : kind ∉ (["r", "v", "c", "a", "u", "alias", "settings"] : List String)) :
    skellify_message f msg name op = Except.error ParseError.UnknownArgumentKind := by
  have he : argExtractorSearch ("$" ++ kind ++ "\x7b" ++ value ++ "\x7d")
      = some (kind, value) :=
    argExtractorSearch_eq _ _ _ [] (token_toList kind value) hval (by simp)
  have hst : pyStartsWith ("$" ++ kind ++ "\x7b" ++ value ++ "\x7d") '$' = true :=
    pyStartsWith_of_toList _ _ _ (token_toList kind value)
  rw [skellify_of_split f msg name op pre _ sk0 hctx hpre, runTokens_cons,
    procToken_unknown_kind sk0 _ kind value hst he hkind]

theorem skellify_unknown_kind_witness :
    skellify_message stringify
        ⟨"alice", ["add", "greet", "$unknownkind\x7bx\x7d", "valid"]⟩ "greet" "add" =
      Except.error ParseError.UnknownArgumentKind :=
  skellify_unknown_kind stringify
    ⟨"alice", ["add", "greet", "$unknownkind\x7bx\x7d", "valid"]⟩ "greet" "add"
    [] ["valid"] "unknownkind" "x" (initSkeleton stringify "alice" "greet")
    rfl rfl (by decide) (by decide)

/-- C6 counterexample: the `$`-token `$u{x}tail` carries extra text after
the braced part — so it does not match the exact shape `$<kind>{<value>}` —
yet the parse accepts it (the unanchored search ignores the trailing text)
instead of failing with `MalformedArgument`. -/
theorem skellify_trailing_text_cex :
    skellify_message stringify ⟨"alice", ["add", "greet", "$u\x7bx\x7dtail"]⟩
        "greet" "add" =
      Except.ok
        { r := ["\x7bx\x7d"], v := [], c := [], a := [], u := ["x"], «alias» := [],
          settings :=
            { name := "greet", author := "alice", permission_level := none,
              cooldown := none, enabled := none } } := rfl

/-- C6 (amended): a token starting with `$` fails with `MalformedArgument`
when it contains no `{` later followed by a `}` (the regular expression has
no match).  The pattern is not anchored to the whole token: a `$`-token
containing such a brace pair is matched greedily — a braced value
containing `}` is read up to the last `}` (`$u{v1}v2}` appends `v1}v2` to
`u`), and extra text around the braced part is ignored (`$u{v}w` appends
`v`) — so neither of those shapes is rejected as malformed. -/
theorem skellify_dollar_malformed :
    (∀ (f : String → String) (msg : Message) (name op : String)
        (pre suf : List String) (t : String) (sk0 : Skeleton),
      msg.context.drop 2 = pre ++ t :: suf →
      runTokens (initSkeleton f msg.user name) pre = Except.ok sk0 →
      pyStartsWith t '$' = true →
      (∀ i j : Nat, i < j → ¬(t.toList[i]? = some '{' ∧ t.toList[j]? = some '}')) →
      skellify_message f msg name op = Except.error ParseError.MalformedArgument) ∧
    (∀ (f : String → String) (msg : Message) (name op : String)
        (pre : List String) (v1 v2 : String) (sk0 : Skeleton),
      msg.context.drop 2 = pre ++ ["$u\x7b" ++ v1 ++ "\x7d" ++ v2 ++ "\x7d"] →
      runTokens (initSkeleton f msg.user name) pre = Except.ok sk0 →
      '{' ∉ v1.toList → '{' ∉ v2.toList →
      skellify_message f msg name op =
        Except.ok
          { sk0 with
            u := sk0.u ++ [v1 ++ "\x7d" ++ v2],
            r := sk0.r ++ ["\x7b" ++ (v1 ++ "\x7d" ++ v2) ++ "\x7d"] }) ∧
    (∀ (f : String → String) (msg : Message) (name op : String)
        (pre : List String) (v w : String) (sk0 : Skeleton),
      msg.context.drop 2 = pre ++ ["$u\x7b" ++ v ++ "\x7d" ++ w] →
      runTokens (initSkeleton f msg.user name) pre = Except.ok sk0 →
      '{' ∉ v.toList → '}' ∉ w.toList →
      skellify_message f msg name op =
        Except.ok { sk0 with u := sk0.u ++ [v], r := sk0.r ++ ["\x7b" ++ v ++ "\x7d"] }) := by
  refine ⟨?_, ?_, ?_⟩
  · intro f msg name op pre suf t sk0 hctx hpre hst hnb
    rw [skellify_of_split f msg name op pre _ sk0 hctx hpre, runTokens_cons,
      procToken_arg_none sk0 t hst (argExtractorSearch_none t hnb)]
  · intro f msg name op pre v1 v2 sk0 hctx hpre h1 h2
    have hts : ("$u\x7b" ++ v1 ++ "\x7d" ++ v2 ++ "\x7d").toList
        = '$' :: "u".toList ++ '{' :: (v1 ++ "\x7d" ++ v2).toList
            ++ '}' :: ([] : List Char) := by
      simp only [toList_append]
      rw [show "$u\x7b".toList = ['$', 'u', '{'] from rfl,
        show "\x7d".toList = ['}'] from rfl, show "u".toList = ['u'] from rfl]
      simp
    have hvm : '{' ∉ (v1 ++ "\x7d" ++ v2).toList := by
      simp only [toList_append]
      rw [show "\x7d".toList = ['}'] from rfl]
      simp
      exact ⟨h1, h2⟩
    have he : argExtractorSearch ("$u\x7b" ++ v1 ++ "\x7d" ++ v2 ++ "\x7d")
        = some ("u", v1 ++ "\x7d" ++ v2) :=
      argExtractorSearch_eq _ _ _ [] hts hvm (by simp)
    have hst : pyStartsWith ("$u\x7b" ++ v1 ++ "\x7d" ++ v2 ++ "\x7d") '$' = true :=
      pyStartsWith_of_toList _ _ _ hts
    rw [skellify_of_split f msg name op pre _ sk0 hctx hpre]
    simp [runTokens, procToken, hst, he]
  · intro f msg name op pre v w sk0 hctx hpre h1 h2
    have hts : ("$u\x7b" ++ v ++ "\x7d" ++ w).toList
        = '$' :: "u".toList ++ '{' :: v.toList ++ '}' :: w.toList := by
      simp only [toList_append]
      rw [show "$u\x7b".toList = ['$', 'u', '{'] from rfl,
        show "\x7d".toList = ['}'] from rfl, show "u".toList = ['u'] from rfl]
      simp
    have he : argExtractorSearch ("$u\x7b" ++ v ++ "\x7d" ++ w) = some ("u", v) :=
      argExtractorSearch_eq _ _ _ w.toList hts h1 h2
    have hst : pyStartsWith ("$u\x7b" ++ v ++ "\x7d" ++ w) '$' = true :=
      pyStartsWith_of_toList _ _ _ hts
    rw [skellify_of_split f msg name op pre _ sk0 hctx hpre]
    simp [runTokens, procToken, hst, he]

theorem skellify_dollar_malformed_witness :
    skellify_message stringify ⟨"alice", ["add", "greet", "$x"]⟩ "greet" "add" =
        Except.error ParseError.MalformedArgument ∧
      skellify_message stringify ⟨"alice", ["add", "greet", "$u\x7ba\x7db\x7d"]⟩
          "greet" "add" =
        Except.ok
          { r := ["\x7ba\x7db\x7d"], v := [], c := [], a := [], u := ["a\x7db"], «alias» := [],
            settings :=
              { name := "greet", author := "alice", permission_level := none,
                cooldown := none, enabled := none } } :=
  ⟨skellify_dollar_malformed.1 stringify ⟨"alice", ["add", "greet", "$x"]⟩
      "greet" "add" [] [] "$x" (initSkeleton stringify "alice" "greet")
      rfl rfl (by decide) (noBracePair_of_no_open "$x" (by decide)),
    skellify_dollar_malformed.2.1 stringify ⟨"alice", ["add", "greet", "$u\x7ba\x7db\x7d"]⟩
      "greet" "add" [] "a" "b" (initSkeleton stringify "alice" "greet")
      rfl rfl (by decide) (by decide)⟩

/-- C7 counterexample: the token `-ul=1=2` is of shape `-ul=v` with
`v = "1=2"`, which is not a valid integer, yet the parse fails with
`UnknownSetting` — the greedy setting extraction reads the key as `ul=1` —
not with `InvalidSettingValue`. -/
theorem skellify_ul_chained_cex :
    skellify_message stringify ⟨"alice", ["add", "greet", "-ul=1=2"]⟩
        "greet" "add" =
      Except.error ParseError.UnknownSetting ∧
      ParseError.UnknownSetting ≠ ParseError.InvalidSettingValue :=
  ⟨rfl, by decide⟩

/-- C7 (amended): for a token `-ul=v` whose value part `v` contains no `=`
(so the greedy extraction reads the key as `ul`): if `v` converts to an
integer `n`, processing the token sets `settings.permission_level` to
exactly `n` (shown with the token as the last content token); if `v` is not
a valid integer, the whole parse fails with `InvalidSettingValue` and
returns no blueprint.  When `v` itself contains `=`, the key is read
greedily up to the last `=` and the parse instead fails with
`UnknownSetting`. -/
theorem skellify_ul_setting :
    (∀ (f : String → String) (msg : Message) (name op : String)
        (pre suf : List String) (v : String) (sk0 : Skeleton),
      msg.context.drop 2 = pre ++ ("-ul=" ++ v) :: suf →
      runTokens (initSkeleton f msg.user name) pre = Except.ok sk0 →
      '=' ∉ v.toList → pyInt v = none →
      skellify_message f msg name op = Except.error ParseError.InvalidSettingValue) ∧
    (∀ (f : String → String) (msg : Message) (name op : String)
        (pre : List String) (v : String) (n : Int) (sk0 : Skeleton),
      msg.context.drop 2 = pre ++ ["-ul=" ++ v] →
      runTokens (initSkeleton f msg.user name) pre = Except.ok sk0 →
      '=' ∉ v.toList → pyInt v = some n →
      skellify_message f msg name op =
        Except.ok
          { sk0 with
            settings := { sk0.settings with permission_level := some n } }) := by
  have hts : ∀ v : String, ("-ul=" ++ v).toList = '-' :: "ul".toList ++ '=' :: v.toList := by
    intro v
    simp only [toList_append]
    rw [show "-ul=".toList = ['-', 'u', 'l', '='] from rfl,
      show "ul".toList = ['u', 'l'] from rfl]
    simp
  constructor
  · intro f msg name op pre suf v sk0 hctx hpre hv hint
    have he : settingExtractorSearch ("-ul=" ++ v) = some ("ul", v) :=
      settingExtractorSearch_eq _ "ul" v (hts v) hv
    have hd : pyStartsWith ("-ul=" ++ v) '$' = false :=
      pyStartsWith_ne_of_toList _ '-' '$' _ (hts v) (by decide)
    have hm : pyStartsWith ("-ul=" ++ v) '-' = true :=
      pyStartsWith_of_toList _ '-' _ (hts v)
    rw [skellify_of_split f msg name op pre _ sk0 hctx hpre]
    simp [runTokens, procToken, hd, hm, he, hint]
  · intro f msg name op pre v n sk0 hctx hpre hv hint
    have he : settingExtractorSearch ("-ul=" ++ v) = some ("ul", v) :=
      settingExtractorSearch_eq _ "ul" v (hts v) hv
    have hd : pyStartsWith ("-ul=" ++ v) '$' = false :=
      pyStartsWith_ne_of_toList _ '-' '$' _ (hts v) (by decide)
    have hm : pyStartsWith ("-ul=" ++ v) '-' = true :=
      pyStartsWith_of_toList _ '-' _ (hts v)
    rw [skellify_of_split f msg name op pre _ sk0 hctx hpre]
    simp [runTokens, procToken, hd, hm, he, hint]

theorem skellify_ul_setting_witness :
    skellify_message stringify ⟨"alice", ["add", "greet", "-ul=abc"]⟩
        "greet" "add" =
      Except.error ParseError.InvalidSettingValue ∧
      skellify_message stringify ⟨"alice", ["add", "greet", "-ul=5"]⟩
          "greet" "add" =
        Except.ok
          { r := [], v := [], c := [], a := [], u := [], «alias» := [],
            settings :=
              { name := "greet", author := "alice", permission_level := some 5,
                cooldown := none, enabled := none } } :=
  ⟨skellify_ul_setting.1 stringify ⟨"alice", ["add", "greet", "-ul=abc"]⟩
      "greet" "add" [] [] "abc" (initSkeleton stringify "alice" "greet")
      rfl rfl (by decide) rfl,
    skellify_ul_setting.2 stringify ⟨"alice", ["add", "greet", "-ul=5"]⟩
      "greet" "add" [] "5" 5 (initSkeleton stringify "alice" "greet")
      rfl rfl (by decide) rfl⟩

/-- C1: for every incoming `del` message, the registry entry is removed and
the artifact deleted iff the name argument is present, a command is
registered under it, and the requester passes `check_meta` against the
command's `permission_level` or is its `author`; on removal the effects
occur in the order registry-removal then file-removal; on any failure the
registry is unchanged and nothing is deleted; no chat response is produced
on any path. -/
theorem delcom_spec (checkMeta : Int → String → Bool) (registry : Registry)
    (msg : Message) :
    (∀ text, Effect.respond text ∉ (delcom checkMeta registry msg).2) ∧
      ((∃ name command, msg.context[1]? = some name ∧ registry name = some command ∧
          (checkMeta command.permission_level msg.user = true ∨
            command.author = msg.user)) ↔
        (delcom checkMeta registry msg).2 ≠ []) ∧
      (∀ name command, msg.context[1]? = some name → registry name = some command →
        (checkMeta command.permission_level msg.user = true ∨
          command.author = msg.user) →
        (delcom checkMeta registry msg).2 =
            [Effect.registryRemove name, Effect.fileRemove command.file] ∧
          (delcom checkMeta registry msg).1 name = none ∧
          ∀ m, m ≠ name → (delcom checkMeta registry msg).1 m = registry m) ∧
      (∀ name command, msg.context[1]? = some name → registry name = some command →
        ¬(checkMeta command.permission_level msg.user = true ∨
            command.author = msg.user) →
        delcom checkMeta registry msg = (registry, [])) ∧
      (msg.context[1]? = none → delcom checkMeta registry msg = (registry, [])) ∧
      (∀ name, msg.context[1]? = some name → registry name = none →
        delcom checkMeta registry msg = (registry, [])) := by
  cases hn : msg.context[1]? with
  | none =>
    have hd : delcom checkMeta registry msg = (registry, []) := by
      simp [delcom, hn]
    refine ⟨?_, ?_, ?_, ?_, ?_, ?_⟩
    · intro text
      rw [hd]
      simp
    · rw [hd]
      constructor
      · rintro ⟨name, command, h1, -⟩
        cases h1
      · intro hne
        simp at hne
    · intro name command h1
      cases h1
    · intro name command h1
      cases h1
    · intro _
      exact hd
    · intro name h1
      cases h1
  | some name0 =>
    cases hr : registry name0 with
    | none =>
      have hd : delcom checkMeta registry msg = (registry, []) := by
        simp [delcom, hn, hr]
      refine ⟨?_, ?_, ?_, ?_, ?_, ?_⟩
      · intro text
        rw [hd]
        simp
      · rw [hd]
        constructor
        · rintro ⟨name, command, h1, h2, -⟩
          injection h1 with h1
          subst h1
          rw [hr] at h2
          cases h2
        · intro hne
          simp at hne
      · intro name command h1 h2
        injection h1 with h1
        subst h1
        rw [hr] at h2
        cases h2
      · intro name command h1 h2
        injection h1 with h1
        subst h1
        rw [hr] at h2
        cases h2
      · intro h1
        cases h1
      · intro name h1 h2
        exact hd
    | some cmd =>
      by_cases hb :
          (checkMeta cmd.permission_level msg.user || cmd.author == msg.user) = true
      · have hd : delcom checkMeta registry msg =
            (fun n => if n == name0 then none else registry n,
              [Effect.registryRemove name0, Effect.fileRemove cmd.file]) := by
          simp [delcom, hn, hr, hb]
        have hauth : checkMeta cmd.permission_level msg.user = true ∨
            cmd.author = msg.user := (delAuth_iff _ _ _).mp hb
        refine ⟨?_, ?_, ?_, ?_, ?_, ?_⟩
        · intro text
          rw [hd]
          simp
        · rw [hd]
          constructor
          · intro _
            simp
          · intro _
            exact ⟨name0, cmd, rfl, hr, hauth⟩
        · intro name command h1 h2 h3
          injection h1 with h1
          subst h1
          rw [hr] at h2
          injection h2 with h2
          subst h2
          rw [hd]
          refine ⟨rfl, by simp, ?_⟩
          intro m hm
          simp [hm]
        · intro name command h1 h2 h3
          injection h1 with h1
          subst h1
          rw [hr] at h2
          injection h2 with h2
          subst h2
          exact absurd hauth h3
        · intro h1
          cases h1
        · intro name h1 h2
          injection h1 with h1
          subst h1
          rw [hr] at h2
          cases h2
      · have hbf :
            (checkMeta cmd.permission_level msg.user || cmd.author == msg.user)
              = false := by
          simpa using hb
        have hd : delcom checkMeta registry msg = (registry, []) := by
          simp [delcom, hn, hr, hbf]
        have hnauth : ¬(checkMeta cmd.permission_level msg.user = true ∨
            cmd.author = msg.user) := by
          rw [← delAuth_iff checkMeta cmd msg.user]
          simp [hbf]
        refine ⟨?_, ?_, ?_, ?_, ?_, ?_⟩
        · intro text
          rw [hd]
          simp
        · rw [hd]
          constructor
          · rintro ⟨name, command, h1, h2, h3⟩
            injection h1 with h1
            subst h1
            rw [hr] at h2
            injection h2 with h2
            subst h2
            exact absurd h3 hnauth
          · intro hne
            simp at hne
        · intro name command h1 h2 h3
          injection h1 with h1
          subst h1
          rw [hr] at h2
          injection h2 with h2
          subst h2
          exact absurd h3 hnauth
        · intro name command h1 h2 h3
          exact hd
        · intro h1
          cases h1
        · intro name h1 h2
          exact hd

theorem delcom_spec_witness :
    delcom (fun _ _ => false)
        (fun n => if n == "greet" then some ⟨5, "alice", "greet.py"⟩ else none)
        ⟨"bob", ["del", "greet"]⟩ =
      ((fun n => if n == "greet" then some ⟨5, "alice", "greet.py"⟩ else none :
          Registry), []) :=
  (delcom_spec (fun _ _ => false)
      (fun n => if n == "greet" then some ⟨5, "alice", "greet.py"⟩ else none)
      ⟨"bob", ["del", "greet"]⟩).2.2.2.1 "greet" ⟨5, "alice", "greet.py"⟩
    rfl rfl (by decide)

/-- C2: for every incoming `add` message, a missing name argument, an
already-registered name, or a missing content token aborts the operation
with no parse, no Builder call and no chat response (the effect list is
empty; the Builder is the only registry writer during `add`, so the
registry is unchanged); when all three preconditions hold and the parse
succeeds, the Builder is invoked with the skeleton and the confirmation
message naming the requester and the command is emitted; a failed parse
produces no Builder call and no response either. -/
theorem addcom_spec (f : String → String) (registry : Registry) (msg : Message) :
    (msg.context[1]? = none → addcom f registry msg = []) ∧
      (∀ name, msg.context[1]? = some name → (registry name).isSome = true →
        addcom f registry msg = []) ∧
      (msg.context[2]? = none → addcom f registry msg = []) ∧
      (∀ name skeleton, msg.context[1]? = some name → registry name = none →
        msg.context[2]? ≠ none →
        skellify_message f msg name "add" = Except.ok skeleton →
        addcom f registry msg =
          [Effect.parseInvoked, Effect.builderCreate skeleton,
            Effect.respond (msg.user ++ " has added " ++ name ++ " to commands")]) ∧
      (∀ name e, msg.context[1]? = some name → registry name = none →
        msg.context[2]? ≠ none →
        skellify_message f msg name "add" = Except.error e →
        addcom f registry msg = [Effect.parseInvoked]) := by
  refine ⟨?_, ?_, ?_, ?_, ?_⟩
  · intro h
    simp [addcom, h]
  · intro name h1 h2
    simp [addcom, h1, h2]
  · intro h2
    cases hn : msg.context[1]? with
    | none => simp [addcom, hn]
    | some name =>
      by_cases hreg : (registry name).isSome = true
      · simp [addcom, hn, hreg]
      · have hregn : registry name = none :=
          Option.not_isSome_iff_eq_none.mp (by simpa using hreg)
        simp [addcom, hn, hregn, h2]
  · intro name skeleton h1 h2 h3 h4
    obtain ⟨t2, ht2⟩ := Option.ne_none_iff_exists'.mp h3
    simp [addcom, h1, h2, ht2, h4]
  · intro name e h1 h2 h3 h4
    obtain ⟨t2, ht2⟩ := Option.ne_none_iff_exists'.mp h3
    simp [addcom, h1, h2, ht2, h4]

theorem addcom_spec_witness :
    addcom stringify (fun _ => none) ⟨"alice", ["add", "greet", "hi"]⟩ =
      [Effect.parseInvoked,
        Effect.builderCreate
          (Skeleton.mk ["hi"] [] [] [] [] []
            (Settings.mk "greet" "alice" none none none)),
        Effect.respond "alice has added greet to commands"] :=
  (addcom_spec stringify (fun _ => none) ⟨"alice", ["add", "greet", "hi"]⟩).2.2.2.1
    "greet"
    (Skeleton.mk ["hi"] [] [] [] [] [] (Settings.mk "greet" "alice" none none none))
    rfl rfl (by decide) rfl

end SymBot
